import Mathlib

deriving instance DecidableEq for Except

/-!
Verification of the blocklist cache core of the `email-analyzer` repository
(`src/blacklists.py`): feed-file parsing into IP networks, the SQLite-backed
range store (byte-lexicographic start/end keys), the full and per-feed rebuild
operations, and the containment query `ip_in_any_blacklist`.

The Python source is shallowly embedded: addresses are natural numbers below
`2 ^ 32` (IPv4) or `2 ^ 128` (IPv6), packed big-endian byte keys are lists of
naturals below 256, the `networks` table is a list of rows, and SQLite blob
comparison is an explicit byte-lexicographic order.
-/

namespace Blacklists

/-- Unsigned byte-lexicographic comparison of two byte strings, as SQLite's
`memcmp`-style BLOB comparison used by `start<=?` / `end>=?` in the query at
`blacklists.py:449`: the first differing byte decides; a proper prefix sorts
before any extension. -/
def lexLe : List Nat → List Nat → Bool
  | [], _ => true
  | _ :: _, [] => false
  | a :: as, b :: bs => a < b || (a == b && lexLe as bs)

/-- Big-endian fixed-width packing of a natural number into `n` bytes, the
model of `ipaddress` `.packed` (`blacklists.py:79-85`): most significant byte
first. -/
def toBytesBE : Nat → Nat → List Nat
  | 0, _ => []
  | n + 1, x => (x / 256 ^ n) :: toBytesBE n (x % 256 ^ n)

theorem toBytesBE_length (n x : Nat) : (toBytesBE n x).length = n := by
  induction n generalizing x with
  | zero => rfl
  | succ n ih => simp [toBytesBE, ih]

/-- Ordering a natural by quotient and remainder with respect to a positive
modulus. -/
theorem le_iff_div_mod (m x y : Nat) (hm : 0 < m) :
    x ≤ y ↔ (x / m < y / m ∨ (x / m = y / m ∧ x % m ≤ y % m)) := by
  constructor
  · intro hxy
    rcases Nat.lt_or_ge (x / m) (y / m) with h | h
    · exact Or.inl h
    · have hdiv : x / m = y / m := le_antisymm (Nat.div_le_div_right hxy) h
      refine Or.inr ⟨hdiv, ?_⟩
      have hx := Nat.mod_add_div x m
      have hy := Nat.mod_add_div y m
      rw [hdiv] at hx
      omega
  · rintro (h | ⟨hdiv, hmod⟩)
    · have h1 : x < (y / m) * m := (Nat.div_lt_iff_lt_mul hm).mp h
      have h2 : y / m * m ≤ y := Nat.div_mul_le_self y m
      omega
    · have hx := Nat.mod_add_div x m
      have hy := Nat.mod_add_div y m
      rw [hdiv] at hx
      omega

/-- On fixed-width big-endian byte strings, byte-lexicographic order coincides
with numeric order: the reason `start <= key <= end` blob comparisons implement
range containment. -/
theorem lexLe_toBytesBE (n x y : Nat) (hx : x < 256 ^ n) (hy : y < 256 ^ n) :
    lexLe (toBytesBE n x) (toBytesBE n y) = true ↔ x ≤ y := by
  induction n generalizing x y with
  | zero =>
    simp [toBytesBE, lexLe]
    omega
  | succ n ih =>
    have hm : 0 < (256 : Nat) ^ n := Nat.pos_pow_of_pos n (by norm_num)
    have hxm : x % 256 ^ n < 256 ^ n := Nat.mod_lt _ hm
    have hym : y % 256 ^ n < 256 ^ n := Nat.mod_lt _ hm
    have hrec := ih (x % 256 ^ n) (y % 256 ^ n) hxm hym
    simp only [toBytesBE, lexLe, Bool.or_eq_true, Bool.and_eq_true, decide_eq_true_eq,
      beq_iff_eq]
    rw [hrec, le_iff_div_mod (256 ^ n) x y hm]

/-- `lexLe` is reflexive. -/
theorem lexLe_refl (l : List Nat) : lexLe l l = true := by
  induction l with
  | nil => rfl
  | cons a as ih => simp [lexLe, ih]

/-- Bit width of an address family, as discriminated throughout
`blacklists.py` by `version == 6` (anything else is treated as IPv4). -/
def addrBits (version : Nat) : Nat := if version = 6 then 128 else 32

/-- Byte width of a `.packed` key: 16 bytes for IPv6, 4 for IPv4. -/
def addrBytes (version : Nat) : Nat := if version = 6 then 16 else 4

theorem addrBits_eq_mul (version : Nat) : addrBits version = 8 * addrBytes version := by
  unfold addrBits addrBytes
  by_cases h : version = 6 <;> simp [h]

/-- A parsed IP address (`ipaddress.ip_address` result): family tag plus
numeric value. -/
structure IPAddr where
  version : Nat
  val : Nat
deriving DecidableEq

/-- The address is a genuine `ipaddress` object: family 4 or 6 and value within
the family's width. -/
def IPAddr.Valid (ip : IPAddr) : Prop :=
  (ip.version = 4 ∨ ip.version = 6) ∧ ip.val < 2 ^ addrBits ip.version

instance (ip : IPAddr) : Decidable ip.Valid := by
  unfold IPAddr.Valid; infer_instance

/-- A parsed IP network (`ipaddress.ip_network(..., strict=False)` result):
family, network address (host bits already masked off), prefix length. -/
structure IPNetwork where
  version : Nat
  netaddr : Nat
  prefixlen : Nat
deriving DecidableEq

/-- The network is a genuine `ipaddress` network object: family 4 or 6, prefix
within the family's width, address within range and with host bits clear. -/
def IPNetwork.Valid (net : IPNetwork) : Prop :=
  (net.version = 4 ∨ net.version = 6) ∧
  net.prefixlen ≤ addrBits net.version ∧
  net.netaddr < 2 ^ addrBits net.version ∧
  net.netaddr % 2 ^ (addrBits net.version - net.prefixlen) = 0

instance (net : IPNetwork) : Decidable net.Valid := by
  unfold IPNetwork.Valid; infer_instance

/-- Number of host bits of a network. -/
def IPNetwork.hostBits (net : IPNetwork) : Nat :=
  addrBits net.version - net.prefixlen

/-- Numeric broadcast (last) address of a network: with host bits of
`netaddr` clear, `network | hostmask = netaddr + (2 ^ hostBits - 1)`, the model
of `net.broadcast_address` at `blacklists.py:85`. -/
def IPNetwork.broadcast (net : IPNetwork) : Nat :=
  net.netaddr + (2 ^ net.hostBits - 1)

/-- Membership of an address in a network, the model of Python's
`ip_obj in net` (`_BaseNetwork.__contains__`): `False` across families,
otherwise `addr & netmask == network_address`, i.e. clearing the host bits of
the address yields the network address. -/
def netContains (net : IPNetwork) (ip : IPAddr) : Bool :=
  net.version == ip.version &&
    ip.val / 2 ^ net.hostBits * 2 ^ net.hostBits == net.netaddr

/-- Masking the host bits of `x` yields `a` (which has host bits clear) exactly
when `x` lies between `a` and `a + (2 ^ k - 1)`: CIDR membership is interval
membership. -/
theorem mask_eq_iff_between (k a x : Nat) (ha : a % 2 ^ k = 0) :
    (x / 2 ^ k * 2 ^ k = a) ↔ (a ≤ x ∧ x ≤ a + (2 ^ k - 1)) := by
  have hm : 0 < (2 : Nat) ^ k := Nat.pos_pow_of_pos k (by norm_num)
  have haq : a / 2 ^ k * 2 ^ k = a :=
    Nat.div_mul_cancel (Nat.dvd_of_mod_eq_zero ha)
  constructor
  · intro hmask
    have hsum : x % 2 ^ k + x / 2 ^ k * 2 ^ k = x := Nat.mod_add_div' x (2 ^ k)
    have hmod : x % 2 ^ k < 2 ^ k := Nat.mod_lt x hm
    rw [hmask] at hsum
    omega
  · rintro ⟨h1, h2⟩
    have hdiv : x / 2 ^ k = a / 2 ^ k := by
      apply Nat.div_eq_of_lt_le
      · rw [haq]; exact h1
      · rw [Nat.succ_mul, haq]; omega
    rw [hdiv, haq]

/-- The broadcast address stays inside the family's width. -/
theorem broadcast_lt (net : IPNetwork) (hv : net.Valid) :
    net.broadcast < 2 ^ addrBits net.version := by
  obtain ⟨_, hp, hlt, hmask⟩ := hv
  unfold IPNetwork.broadcast IPNetwork.hostBits
  set k := addrBits net.version - net.prefixlen with hk
  have hm : 0 < (2 : Nat) ^ k := Nat.pos_pow_of_pos k (by norm_num)
  have hq : net.netaddr / 2 ^ k * 2 ^ k = net.netaddr :=
    Nat.div_mul_cancel (Nat.dvd_of_mod_eq_zero hmask)
  have hkb : 2 ^ (addrBits net.version - k) * 2 ^ k = 2 ^ addrBits net.version := by
    rw [← pow_add]
    congr 1
    omega
  have hkb2 : 2 ^ k * 2 ^ (addrBits net.version - k) = 2 ^ addrBits net.version := by
    rw [← pow_add]
    congr 1
    omega
  have hqlt : net.netaddr / 2 ^ k < 2 ^ (addrBits net.version - k) := by
    apply Nat.div_lt_of_lt_mul
    rw [hkb2]
    exact hlt
  have hle : (net.netaddr / 2 ^ k + 1) * 2 ^ k ≤ 2 ^ addrBits net.version := by
    calc (net.netaddr / 2 ^ k + 1) * 2 ^ k
        ≤ 2 ^ (addrBits net.version - k) * 2 ^ k := by
          apply Nat.mul_le_mul_right
          omega
      _ = 2 ^ addrBits net.version := hkb
  have hadd : (net.netaddr / 2 ^ k + 1) * 2 ^ k
      = net.netaddr / 2 ^ k * 2 ^ k + 1 * 2 ^ k := Nat.add_mul _ 1 _
  omega

/-- `_network_bounds_bytes` (`blacklists.py:84-85`): the packed network and
broadcast addresses of a network, the start/end byte keys of a stored row. -/
def network_bounds_bytes (net : IPNetwork) : List Nat × List Nat :=
  (toBytesBE (addrBytes net.version) net.netaddr,
   toBytesBE (addrBytes net.version) net.broadcast)

/-- A row of the `networks` table (`blacklists.py:59-68`). `endb` stands for
the SQL column `end`. -/
structure NetworkRow where
  feed : String
  cidr : String
  start : List Nat
  endb : List Nat
  version : Nat
  last_updated : Nat
deriving DecidableEq

/-- Rendering of an IPv4 numeric address as dotted decimal. -/
def ipv4Text (v : Nat) : String :=
  toString (v / 16777216 % 256) ++ "." ++ toString (v / 65536 % 256) ++ "." ++
    toString (v / 256 % 256) ++ "." ++ toString (v % 256)

/-- Model of Python `str(net)` used for the diagnostic `cidr` column
(`blacklists.py:160`); IPv6 addresses are rendered as the plain decimal of the
numeric address rather than compressed hex — the column is never read by any
query, so only injectivity per family matters. -/
def netText (net : IPNetwork) : String :=
  (if net.version = 6 then toString net.netaddr else ipv4Text net.netaddr) ++
    "/" ++ toString net.prefixlen

/-- The row inserted for one parsed network (`blacklists.py:157-160` and
`313-316`): byte-key bounds from `_network_bounds_bytes`, family tag
`6 if net.version == 6 else 4`, and the insertion time. -/
def rowOfNet (now : Nat) (feed : String) (net : IPNetwork) : NetworkRow :=
  { feed := feed
    cidr := netText net
    start := (network_bounds_bytes net).1
    endb := (network_bounds_bytes net).2
    version := if net.version = 6 then 6 else 4
    last_updated := now }

/-- The packed form of a query address, `ip_obj.packed` at `blacklists.py:447`. -/
def ipKey (ip : IPAddr) : List Nat :=
  toBytesBE (addrBytes ip.version) ip.val

/-- The row predicate of the SQL query at `blacklists.py:449`:
`version=? AND start<=? AND end>=?` with `?` the query address's family tag and
packed key. -/
def matchRow (ip : IPAddr) (r : NetworkRow) : Bool :=
  (r.version == if ip.version = 6 then 6 else 4) &&
    lexLe r.start (ipKey ip) && lexLe (ipKey ip) r.endb

/-- `SELECT DISTINCT feed FROM networks WHERE version=? AND start<=? AND end>=?`
(`blacklists.py:443-455`): the distinct feed names of the matching rows. -/
def queryRows (rows : List NetworkRow) (ip : IPAddr) : List String :=
  ((rows.filter (matchRow ip)).map NetworkRow.feed).dedup

theorem mem_queryRows (rows : List NetworkRow) (ip : IPAddr) (F : String) :
    F ∈ queryRows rows ip ↔ ∃ r ∈ rows, matchRow ip r = true ∧ r.feed = F := by
  unfold queryRows
  rw [List.mem_dedup, List.mem_map]
  constructor
  · rintro ⟨r, hr, hfeed⟩
    rw [List.mem_filter] at hr
    exact ⟨r, hr.1, hr.2, hfeed⟩
  · rintro ⟨r, hr, hmatch, hfeed⟩
    exact ⟨r, List.mem_filter.mpr ⟨hr, hmatch⟩, hfeed⟩

/-- The heart of claim C1: for a valid network and a valid address, the stored
byte-bound comparison `start <= key <= end` (plus the family tag check) agrees
exactly with CIDR membership as computed by Python's `in` operator. -/
theorem matchRow_rowOfNet (now : Nat) (feed : String) (net : IPNetwork)
    (ip : IPAddr) (hnet : net.Valid) (hip : ip.Valid) :
    matchRow ip (rowOfNet now feed net) = netContains net ip := by
  obtain ⟨hnv, hp, hlt, hmask⟩ := hnet
  obtain ⟨hiv, hilt⟩ := hip
  unfold matchRow rowOfNet netContains network_bounds_bytes ipKey
  simp only
  by_cases hver : net.version = ip.version
  · have hversions : (if net.version = 6 then 6 else 4) = (if ip.version = 6 then 6 else 4) := by
      rw [hver]
    rw [hversions]
    simp only [beq_self_eq_true, Bool.true_and]
    have hbeq : (net.version == ip.version) = true := by
      exact beq_iff_eq.mpr hver
    rw [hbeq, Bool.true_and]
    have hbytes : addrBytes ip.version = addrBytes net.version := by rw [hver]
    have hpow : 2 ^ addrBits net.version = 256 ^ addrBytes net.version := by
      rw [addrBits_eq_mul, pow_mul]
      norm_num
    have hlt' : net.netaddr < 256 ^ addrBytes net.version := by rw [← hpow]; exact hlt
    have hbc' : net.broadcast < 256 ^ addrBytes net.version := by
      rw [← hpow]
      exact broadcast_lt net ⟨hnv, hp, hlt, hmask⟩
    have hval' : ip.val < 256 ^ addrBytes net.version := by
      rw [← hpow, hver]
      exact hilt
    rw [hbytes]
    rw [Bool.eq_iff_iff, Bool.and_eq_true]
    rw [lexLe_toBytesBE _ _ _ hlt' hval', lexLe_toBytesBE _ _ _ hval' hbc']
    unfold IPNetwork.broadcast IPNetwork.hostBits
    rw [beq_iff_eq, mask_eq_iff_between _ _ _ hmask]
  · have hne : (net.version == ip.version) = false := by
      exact beq_eq_false_iff_ne.mpr hver
    rw [hne, Bool.false_and]
    have : ((if net.version = 6 then 6 else 4 : Nat) == if ip.version = 6 then 6 else 4) = false := by
      rcases hnv with h4 | h6 <;> rcases hiv with hi4 | hi6 <;>
        simp_all
    rw [this, Bool.false_and, Bool.false_and]

/-! ### Textual parsing

Models of the text handling inside `_load_networks_from_file`
(`blacklists.py:341-382`) and of the `ipaddress` standard-library parsers it
delegates to. Lines are processed as lists of characters. -/

/-- Python `str.strip()`: drop leading and trailing whitespace. -/
def trimChars (cs : List Char) : List Char :=
  ((cs.dropWhile Char.isWhitespace).reverse.dropWhile Char.isWhitespace).reverse

/-- Cut a line at the first occurrence of a one-character comment marker and
strip the kept part, exactly when the marker occurs
(`raw.split(marker, 1)[0].strip()` guarded by `marker in raw`,
`blacklists.py:351-353`). -/
def cutAtChar (marker : Char) (cs : List Char) : List Char :=
  if cs.contains marker then trimChars (cs.takeWhile (fun c => c ≠ marker)) else cs

/-- Whether the two-character marker `//` occurs in the line. -/
def hasSlashSlash : List Char → Bool
  | '/' :: '/' :: _ => true
  | _ :: rest => hasSlashSlash rest
  | [] => false

/-- The part of the line before the first `//`. -/
def beforeSlashSlash : List Char → List Char
  | '/' :: '/' :: _ => []
  | c :: rest => c :: beforeSlashSlash rest
  | [] => []

/-- Cut at the first `//` comment marker when present, stripping the kept part. -/
def cutAtSlashSlash (cs : List Char) : List Char :=
  if hasSlashSlash cs then trimChars (beforeSlashSlash cs) else cs

/-- Python `raw.split()`: the maximal whitespace-free tokens of a line. -/
def splitWsAux : List Char → List Char → List (List Char)
  | [], acc => if acc.isEmpty then [] else [acc.reverse]
  | c :: rest, acc =>
    if c.isWhitespace then
      if acc.isEmpty then splitWsAux rest [] else acc.reverse :: splitWsAux rest []
    else splitWsAux rest (c :: acc)

def splitWs (cs : List Char) : List (List Char) := splitWsAux cs []

/-- Split on every occurrence of a separator character, keeping empty pieces,
as Python `str.split(sep)`. -/
def splitOnCharAux (sep : Char) : List Char → List Char → List (List Char)
  | [], acc => [acc.reverse]
  | c :: rest, acc =>
    if c = sep then acc.reverse :: splitOnCharAux sep rest []
    else splitOnCharAux sep rest (c :: acc)

def splitOnChar (sep : Char) (cs : List Char) : List (List Char) :=
  splitOnCharAux sep cs []

/-- A quote character, double or single (code point 39). -/
def isQuoteChar (c : Char) : Bool := c == '"' || c == Char.ofNat 39

/-- Python `p.strip().strip(chr(34) + chr(39))` applied to a whitespace-free
token (`blacklists.py:361`): strip quote characters from both ends. -/
def stripQuotes (cs : List Char) : List Char :=
  ((cs.dropWhile isQuoteChar).reverse.dropWhile isQuoteChar).reverse

/-- The token-selection loop at `blacklists.py:358-366`: the first token of the
line that is non-empty after quote stripping. -/
def firstToken (cs : List Char) : Option (List Char) :=
  ((splitWs cs).filterMap fun p =>
    let t := stripQuotes p
    if t.isEmpty then none else some t).head?

/-- An ASCII decimal digit, as required by `ipaddress` octet and prefix
parsing. -/
def isDecDigit (c : Char) : Bool := 48 ≤ c.toNat && c.toNat ≤ 57

/-- An ASCII hexadecimal digit. -/
def isHexDigit (c : Char) : Bool :=
  (48 ≤ c.toNat && c.toNat ≤ 57) || (97 ≤ c.toNat && c.toNat ≤ 102) ||
    (65 ≤ c.toNat && c.toNat ≤ 70)

/-- Numeric value of a hexadecimal digit character. -/
def hexVal (c : Char) : Nat :=
  if c.toNat ≤ 57 then c.toNat - 48
  else if c.toNat ≤ 70 then c.toNat - 55
  else c.toNat - 87

theorem hexVal_lt (c : Char) (h : isHexDigit c = true) : hexVal c < 16 := by
  unfold isHexDigit at h
  unfold hexVal
  simp only [Bool.or_eq_true, Bool.and_eq_true, decide_eq_true_eq] at h
  rcases h with (⟨h1, h2⟩ | ⟨h1, h2⟩) | ⟨h1, h2⟩ <;>
    split <;> first | omega | (split <;> omega)

/-- Big-endian value of a string of decimal digits. -/
def decDigitsVal : List Char → Nat
  | [] => 0
  | c :: t => (c.toNat - 48) * 10 ^ t.length + decDigitsVal t

/-- Big-endian value of a string of hexadecimal digits. -/
def hexDigitsVal : List Char → Nat
  | [] => 0
  | c :: t => hexVal c * 16 ^ t.length + hexDigitsVal t

theorem hexDigitsVal_lt (cs : List Char) (h : ∀ c ∈ cs, isHexDigit c = true) :
    hexDigitsVal cs < 16 ^ cs.length := by
  induction cs with
  | nil => simp [hexDigitsVal]
  | cons c t ih =>
    have hc : hexVal c < 16 := hexVal_lt c (h c (List.mem_cons_self c t))
    have ht : hexDigitsVal t < 16 ^ t.length := ih fun x hx => h x (List.mem_cons_of_mem c hx)
    have : hexVal c * 16 ^ t.length ≤ 15 * 16 ^ t.length :=
      Nat.mul_le_mul_right _ (by omega)
    simp only [hexDigitsVal, List.length_cons, pow_succ]
    calc hexVal c * 16 ^ t.length + hexDigitsVal t
        ≤ 15 * 16 ^ t.length + hexDigitsVal t := by omega
      _ < 15 * 16 ^ t.length + 16 ^ t.length := by omega
      _ = 16 ^ t.length * 16 := by ring
      _ ≤ 16 ^ t.length * 16 := le_refl _

/-- `_parse_octet` of `ipaddress.IPv4Address`: one to three ASCII decimal
digits, no leading zero in a multi-digit octet, value at most 255. -/
def parseOctet (cs : List Char) : Option Nat :=
  if cs.length = 0 ∨ 3 < cs.length then none
  else if ¬ cs.all isDecDigit then none
  else if 1 < cs.length ∧ cs.headD ' ' == '0' then none
  else
    let v := decDigitsVal cs
    if v ≤ 255 then some v else none

theorem parseOctet_le (cs : List Char) (v : Nat) (h : parseOctet cs = some v) :
    v ≤ 255 := by
  unfold parseOctet at h
  split at h
  · simp at h
  · split at h
    · simp at h
    · split at h
      · simp at h
      · simp only at h
        split at h
        · rw [Option.some_inj] at h
          omega
        · simp at h

/-- `_ip_int_from_string` of `ipaddress.IPv4Address`: exactly four octets
separated by dots. -/
def parseIPv4Addr (cs : List Char) : Option Nat :=
  match splitOnChar '.' cs with
  | [a, b, c, d] =>
    match parseOctet a, parseOctet b, parseOctet c, parseOctet d with
    | some o1, some o2, some o3, some o4 =>
      some (o1 * 16777216 + o2 * 65536 + o3 * 256 + o4)
    | _, _, _, _ => none
  | _ => none

/-- `_parse_hextet` of `ipaddress.IPv6Address`: one to four ASCII hexadecimal
digits. -/
def parseHextet (cs : List Char) : Option Nat :=
  if cs.length = 0 ∨ 4 < cs.length then none
  else if ¬ cs.all isHexDigit then none
  else some (hexDigitsVal cs)

theorem parseHextet_lt (cs : List Char) (v : Nat) (h : parseHextet cs = some v) :
    v < 65536 := by
  unfold parseHextet at h
  split at h
  · simp at h
  · split at h
    · simp at h
    · rw [Option.some_inj] at h
      rename_i hlen hall
      rw [not_not] at hall
      have hb := hexDigitsVal_lt cs (by
        intro c hc
        exact (List.all_eq_true.mp hall c hc))
      have hle : (16 : Nat) ^ cs.length ≤ 16 ^ 4 :=
        Nat.pow_le_pow_right (by norm_num) (by omega)
      omega

/-- Big-endian value of a list of 16-bit groups. -/
def hextetsVal : List Nat → Nat
  | [] => 0
  | h :: t => h * 65536 ^ t.length + hextetsVal t

theorem hextetsVal_lt (l : List Nat) (h : ∀ x ∈ l, x < 65536) :
    hextetsVal l < 65536 ^ l.length := by
  induction l with
  | nil => simp [hextetsVal]
  | cons x t ih =>
    have hx : x < 65536 := h x (List.mem_cons_self x t)
    have ht : hextetsVal t < 65536 ^ t.length :=
      ih fun y hy => h y (List.mem_cons_of_mem x hy)
    have hmul : x * 65536 ^ t.length ≤ 65535 * 65536 ^ t.length :=
      Nat.mul_le_mul_right _ (by omega)
    simp only [hextetsVal, List.length_cons, pow_succ]
    have : 65535 * 65536 ^ t.length + 65536 ^ t.length = 65536 ^ t.length * 65536 := by
      ring
    omega

/-- Parse a list of hextet strings, failing if any fails. -/
def parseHextets : List (List Char) → Option (List Nat)
  | [] => some []
  | p :: rest =>
    match parseHextet p, parseHextets rest with
    | some v, some vs => some (v :: vs)
    | _, _ => none

theorem parseHextets_lt (ps : List (List Char)) (vs : List Nat)
    (h : parseHextets ps = some vs) : ∀ v ∈ vs, v < 65536 := by
  induction ps generalizing vs with
  | nil =>
    unfold parseHextets at h
    rw [Option.some_inj] at h
    subst h
    simp
  | cons p rest ih =>
    unfold parseHextets at h
    split at h
    · rename_i v vs' hv hvs
      rw [Option.some_inj] at h
      subst h
      intro x hx
      rcases List.mem_cons.mp hx with hx | hx
      · subst hx
        exact parseHextet_lt p x hv
      · exact ih vs' hvs x hx
    · simp at h

theorem parseHextets_length (ps : List (List Char)) (vs : List Nat)
    (h : parseHextets ps = some vs) : vs.length = ps.length := by
  induction ps generalizing vs with
  | nil =>
    unfold parseHextets at h
    rw [Option.some_inj] at h
    subst h
    rfl
  | cons p rest ih =>
    unfold parseHextets at h
    split at h
    · rename_i v vs' hv hvs
      rw [Option.some_inj] at h
      subst h
      simp [ih vs' hvs]
    · simp at h

/-- Trim the one permitted empty edge part of a `::` compression: a leading
(resp. trailing) empty part is allowed only when it is the whole side, as in
`ipaddress._ip_int_from_string` for IPv6
(`parts_hi -= 1; if parts_hi: raise`). -/
def adjustEdge (side : List (List Char)) : Option (List (List Char)) :=
  match side with
  | [] => some []
  | p :: rest => if p.isEmpty then (if rest.isEmpty then some [] else none) else some side

/-- `_ip_int_from_string` of `ipaddress.IPv6Address`, without the embedded
IPv4 (`::ffff:1.2.3.4`) form: split on `:`, locate the at-most-one `::`
compression among the interior parts, check the edge colons, parse 16-bit hex
groups and assemble the 128-bit value with the skipped groups as zeros. -/
def parseIPv6Addr (cs : List Char) : Option Nat :=
  let parts := splitOnChar ':' cs
  if parts.length < 3 then none
  else
    let middle := (parts.drop 1).take (parts.length - 2)
    let emptyCount := middle.countP (fun p => p.isEmpty)
    if 1 < emptyCount then none
    else if emptyCount = 1 then
      let i := 1 + middle.findIdx (fun p => p.isEmpty)
      match adjustEdge (parts.take i), adjustEdge (parts.drop (i + 1)).reverse with
      | some hi, some loRev =>
        match parseHextets hi, parseHextets loRev.reverse with
        | some hiVals, some loVals =>
          if hiVals.length + loVals.length ≤ 7 then
            some (hextetsVal (hiVals ++
              List.replicate (8 - (hiVals.length + loVals.length)) 0 ++ loVals))
          else none
        | _, _ => none
      | _, _ => none
    else
      if parts.length = 8 then
        match parseHextets parts with
        | some vals => some (hextetsVal vals)
        | none => none
      else none

theorem hextetsVal_lt_of_le_8 (l : List Nat) (hlen : l.length ≤ 8)
    (h : ∀ x ∈ l, x < 65536) : hextetsVal l < 2 ^ 128 := by
  have := hextetsVal_lt l h
  have hle : (65536 : Nat) ^ l.length ≤ 65536 ^ 8 :=
    Nat.pow_le_pow_right (by norm_num) hlen
  have : (65536 : Nat) ^ 8 = 2 ^ 128 := by norm_num
  omega

theorem parseIPv6Addr_lt (cs : List Char) (v : Nat) (h : parseIPv6Addr cs = some v) :
    v < 2 ^ 128 := by
  unfold parseIPv6Addr at h
  dsimp only at h
  split at h
  · simp at h
  · split at h
    · simp at h
    · split at h
      · split at h
        · split at h
          · rename_i hi loRev _ _ hiVals loVals hhi hlo
            split at h
            · rw [Option.some_inj] at h
              subst h
              apply hextetsVal_lt_of_le_8
              · simp only [List.length_append, List.length_replicate]
                omega
              · intro x hx
                simp only [List.mem_append, List.mem_replicate] at hx
                rcases hx with (hx | hx) | hx
                · exact parseHextets_lt _ _ hhi x hx
                · omega
                · exact parseHextets_lt _ _ hlo x hx
            · simp at h
          · simp at h
        · simp at h
      · split at h
        · split at h
          · rename_i vals hvals
            rw [Option.some_inj] at h
            subst h
            apply hextetsVal_lt_of_le_8
            · rw [parseHextets_length _ _ hvals]
              omega
            · exact parseHextets_lt _ _ hvals
          · simp at h
        · simp at h

theorem parseIPv4Addr_lt (cs : List Char) (v : Nat) (h : parseIPv4Addr cs = some v) :
    v < 2 ^ 32 := by
  unfold parseIPv4Addr at h
  split at h
  · rename_i a b c d
    split at h
    · rename_i o1 o2 o3 o4 h1 h2 h3 h4
      have := parseOctet_le _ _ h1
      have := parseOctet_le _ _ h2
      have := parseOctet_le _ _ h3
      have := parseOctet_le _ _ h4
      rw [Option.some_inj] at h
      omega
    · simp at h
  · simp at h

/-- `_prefix_from_prefix_string` of `ipaddress`: a non-empty string of ASCII
decimal digits whose value is at most the family's maximum prefix length. -/
def parsePrefixLen (cs : List Char) (maxLen : Nat) : Option Nat :=
  if cs.isEmpty then none
  else if ¬ cs.all isDecDigit then none
  else
    let v := decDigitsVal cs
    if v ≤ maxLen then some v else none

theorem parsePrefixLen_le (cs : List Char) (maxLen p : Nat)
    (h : parsePrefixLen cs maxLen = some p) : p ≤ maxLen := by
  unfold parsePrefixLen at h
  split at h
  · simp at h
  · split at h
    · simp at h
    · simp only at h
      split at h
      · rw [Option.some_inj] at h
        omega
      · simp at h

/-- Clearing the low `w - p` bits of an address value: the `strict=False`
network-address computation of `ipaddress.ip_network`. -/
def maskAddr (w v p : Nat) : Nat := v / 2 ^ (w - p) * 2 ^ (w - p)

/-- Model of `ipaddress.ip_network(token, strict=False)` as called at
`blacklists.py:371` and `375`: try `IPv4Network` then `IPv6Network`, with the
optional `/prefix` suffix (integer prefix lengths; the dotted-netmask and
embedded-IPv4 spellings accepted by Python are not modelled — they never
appear in any statement below). -/
def ip_network (cs : List Char) : Option IPNetwork :=
  match splitOnChar '/' cs with
  | [a] =>
    match parseIPv4Addr a with
    | some v => some ⟨4, v, 32⟩
    | none =>
      match parseIPv6Addr a with
      | some v => some ⟨6, v, 128⟩
      | none => none
  | [a, p] =>
    match parseIPv4Addr a, parsePrefixLen p 32 with
    | some v, some pl => some ⟨4, maskAddr 32 v pl, pl⟩
    | _, _ =>
      match parseIPv6Addr a, parsePrefixLen p 128 with
      | some v, some pl => some ⟨6, maskAddr 128 v pl, pl⟩
      | _, _ => none
  | _ => none

theorem maskAddr_valid (w v p : Nat) (hv : v < 2 ^ w) (_hp : p ≤ w) :
    maskAddr w v p < 2 ^ w ∧ maskAddr w v p % 2 ^ (w - p) = 0 := by
  unfold maskAddr
  constructor
  · have : v / 2 ^ (w - p) * 2 ^ (w - p) ≤ v := Nat.div_mul_le_self v _
    omega
  · exact Nat.mul_mod_left _ _

/-- Every network produced by the `ip_network` model is a well-formed
`ipaddress` network object. -/
theorem ip_network_valid (cs : List Char) (net : IPNetwork)
    (h : ip_network cs = some net) : net.Valid := by
  unfold ip_network at h
  have hb4 : addrBits 4 = 32 := by norm_num [addrBits]
  have hb6 : addrBits 6 = 128 := by norm_num [addrBits]
  split at h
  · split at h
    · rename_i v hv
      rw [Option.some_inj] at h
      subst h
      refine ⟨Or.inl rfl, ?_, ?_, ?_⟩ <;> simp only [hb4]
      · exact le_refl 32
      · exact parseIPv4Addr_lt _ _ hv
      · omega
    · split at h
      · rename_i v hv
        rw [Option.some_inj] at h
        subst h
        refine ⟨Or.inr rfl, ?_, ?_, ?_⟩ <;> simp only [hb6]
        · exact le_refl 128
        · exact parseIPv6Addr_lt _ _ hv
        · omega
      · simp at h
  · split at h
    · rename_i v pl hv hpl
      rw [Option.some_inj] at h
      subst h
      have hple := parsePrefixLen_le _ _ _ hpl
      have hm := maskAddr_valid 32 v pl (parseIPv4Addr_lt _ _ hv) hple
      exact ⟨Or.inl rfl, by simpa [hb4] using hple, by simpa [hb4] using hm.1,
        by simpa [hb4] using hm.2⟩
    · split at h
      · rename_i v pl hv hpl
        rw [Option.some_inj] at h
        subst h
        have hple := parsePrefixLen_le _ _ _ hpl
        have hm := maskAddr_valid 128 v pl (parseIPv6Addr_lt _ _ hv) hple
        exact ⟨Or.inr rfl, by simpa [hb6] using hple, by simpa [hb6] using hm.1,
          by simpa [hb6] using hm.2⟩
      · simp at h
  · simp at h

/-- Model of `ipaddress.ip_address(ip)` at `blacklists.py:392`: try IPv4 then
IPv6. -/
def ip_address (s : String) : Option IPAddr :=
  match parseIPv4Addr s.data with
  | some v => some ⟨4, v⟩
  | none =>
    match parseIPv6Addr s.data with
    | some v => some ⟨6, v⟩
    | none => none

/-- Every address produced by the `ip_address` model is a well-formed
`ipaddress` address object. -/
theorem ip_address_valid (s : String) (ip : IPAddr)
    (h : ip_address s = some ip) : ip.Valid := by
  unfold ip_address at h
  split at h
  · rename_i v hv
    rw [Option.some_inj] at h
    subst h
    exact ⟨Or.inl rfl, by simpa [addrBits] using parseIPv4Addr_lt _ _ hv⟩
  · split at h
    · rename_i v hv
      rw [Option.some_inj] at h
      subst h
      exact ⟨Or.inr rfl, by simpa [addrBits] using parseIPv6Addr_lt _ _ hv⟩
    · simp at h

/-- One iteration of the line loop of `_load_networks_from_file`
(`blacklists.py:345-379`): strip the line, drop it if empty, strip `#`, `;`
and `//` comments in that order, pick the first non-empty quote-stripped
whitespace token, and parse it as a network — appending `/32` (no colon in the
token) or `/128` (colon present) when the token carries no explicit prefix.
`none` models both `continue` paths and the swallowed parse exception. -/
def parseFeedLine (line : String) : Option IPNetwork :=
  let raw0 := trimChars line.data
  if raw0.isEmpty then none
  else
    let raw := cutAtSlashSlash (cutAtChar ';' (cutAtChar '#' raw0))
    if raw.isEmpty then none
    else
      match firstToken raw with
      | none => none
      | some token =>
        if token.contains '/' then ip_network token
        else if token.contains ':' then ip_network (token ++ ['/', '1', '2', '8'])
        else ip_network (token ++ ['/', '3', '2'])

/-- Every network produced by a feed line is well-formed. -/
theorem parseFeedLine_valid (line : String) (net : IPNetwork)
    (h : parseFeedLine line = some net) : net.Valid := by
  unfold parseFeedLine at h
  dsimp only at h
  split at h
  · simp at h
  · split at h
    · simp at h
    · split at h
      · simp at h
      · rename_i token
        split at h
        · exact ip_network_valid _ _ h
        · split at h
          · exact ip_network_valid _ _ h
          · exact ip_network_valid _ _ h

/-! ### Feed files and store operations -/

/-- The outcome of opening and reading one feed file. `ioError` is any failure
other than the file being absent: permission denied, undecodable bytes, a
device error. -/
inductive FileRead where
  | missing
  | ioError
  | content (lines : List String)
deriving DecidableEq

/-- `_load_networks_from_file` (`blacklists.py:341-382`): parse each line,
skipping unparseable ones. Only `FileNotFoundError` is caught (line 380-381),
yielding an empty network list; any other read failure propagates as an
exception (`.error`). -/
def load_networks_from_file : FileRead → Except Unit (List IPNetwork)
  | .missing => .ok []
  | .ioError => .error ()
  | .content lines => .ok (lines.filterMap parseFeedLine)

theorem load_networks_valid (fr : FileRead) (nets : List IPNetwork)
    (h : load_networks_from_file fr = .ok nets) : ∀ net ∈ nets, net.Valid := by
  cases fr with
  | missing =>
    simp only [load_networks_from_file, Except.ok.injEq] at h
    subst h
    simp
  | ioError => simp [load_networks_from_file] at h
  | content lines =>
    simp only [load_networks_from_file, Except.ok.injEq] at h
    subst h
    intro net hnet
    rw [List.mem_filterMap] at hnet
    obtain ⟨line, _, hline⟩ := hnet
    exact parseFeedLine_valid line net hline

theorem load_networks_ok (fr : FileRead) (h : fr ≠ FileRead.ioError) :
    ∃ nets, load_networks_from_file fr = .ok nets := by
  cases fr with
  | missing => exact ⟨[], rfl⟩
  | ioError => exact absurd rfl h
  | content lines => exact ⟨lines.filterMap parseFeedLine, rfl⟩

/-- `_rebuild_cache` (`blacklists.py:135-166`) at the level of the committed
row set it produces when it completes: for each configured feed in order, parse
its file and insert one row per network. A file-read failure other than
file-not-found propagates out of the rebuild. -/
def rebuildCacheRows (now : Nat) : List (String × FileRead) → Except Unit (List NetworkRow)
  | [] => .ok []
  | (name, fr) :: rest =>
    match load_networks_from_file fr with
    | .error e => .error e
    | .ok nets =>
      match rebuildCacheRows now rest with
      | .error e => .error e
      | .ok tail => .ok (nets.map (rowOfNet now name) ++ tail)

theorem rebuildCacheRows_ok (now : Nat) (feeds : List (String × FileRead))
    (h : ∀ p ∈ feeds, p.2 ≠ FileRead.ioError) :
    ∃ rows, rebuildCacheRows now feeds = .ok rows := by
  induction feeds with
  | nil => exact ⟨[], rfl⟩
  | cons p rest ih =>
    obtain ⟨name, fr⟩ := p
    obtain ⟨nets, hnets⟩ := load_networks_ok fr (h (name, fr) (List.mem_cons_self _ _))
    obtain ⟨tail, htail⟩ := ih fun q hq => h q (List.mem_cons_of_mem _ hq)
    exact ⟨nets.map (rowOfNet now name) ++ tail, by
      unfold rebuildCacheRows
      rw [hnets, htail]⟩

/-- The rows of a completed full rebuild are exactly one row per network of
each configured feed's file. -/
theorem mem_rebuildCacheRows (now : Nat) (feeds : List (String × FileRead))
    (rows : List NetworkRow) (h : rebuildCacheRows now feeds = .ok rows)
    (r : NetworkRow) :
    r ∈ rows ↔ ∃ name fr nets net, (name, fr) ∈ feeds ∧
      load_networks_from_file fr = .ok nets ∧ net ∈ nets ∧
      r = rowOfNet now name net := by
  induction feeds generalizing rows with
  | nil =>
    unfold rebuildCacheRows at h
    rw [Except.ok.injEq] at h
    subst h
    simp
  | cons p rest ih =>
    obtain ⟨name, fr⟩ := p
    unfold rebuildCacheRows at h
    split at h
    · simp at h
    · rename_i nets hnets
      split at h
      · simp at h
      · rename_i tail htail
        rw [Except.ok.injEq] at h
        subst h
        rw [List.mem_append, List.mem_map, ih tail htail]
        constructor
        · rintro (⟨net, hnet, hr⟩ | ⟨name', fr', nets', net, hmem, hload, hnet, hr⟩)
          · exact ⟨name, fr, nets, net, List.mem_cons_self _ _, hnets, hnet, hr.symm⟩
          · exact ⟨name', fr', nets', net, List.mem_cons_of_mem _ hmem, hload, hnet, hr⟩
        · rintro ⟨name', fr', nets', net, hmem, hload, hnet, hr⟩
          rcases List.mem_cons.mp hmem with heq | hmem'
          · rw [Prod.mk.injEq] at heq
            obtain ⟨h1, h2⟩ := heq
            subst h1
            subst h2
            rw [hnets, Except.ok.injEq] at hload
            subst hload
            exact Or.inl ⟨net, hnet, hr.symm⟩
          · exact Or.inr ⟨name', fr', nets', net, hmem', hload, hnet, hr⟩

/-- `_update_db_for_feed` (`blacklists.py:299-328`) at the level of the
committed row set: delete all rows of the feed, parse the feed's file and
insert one row per network, in a single transaction committed at the end
(line 327). A load failure raises before the commit, so the prior committed
rows survive unchanged. -/
def update_db_for_feed (db : List NetworkRow) (feed : String) (now : Nat)
    (fr : FileRead) : Except Unit (List NetworkRow) :=
  match load_networks_from_file fr with
  | .error e => .error e
  | .ok nets => .ok (db.filter (fun r => r.feed != feed) ++ nets.map (rowOfNet now feed))

/-- The direct-parse fallback loop of `ip_in_any_blacklist`
(`blacklists.py:460-468`): for each feed, parse its file and record the feed
on the first containing network. The loop body is not guarded by any handler,
so a read failure other than file-not-found propagates to the caller. -/
def directParseHits : List (String × FileRead) → IPAddr → Except Unit (List String)
  | [], _ => .ok []
  | (name, fr) :: rest, ip =>
    match load_networks_from_file fr with
    | .error e => .error e
    | .ok nets =>
      match directParseHits rest ip with
      | .error e => .error e
      | .ok hits =>
        .ok (if nets.any (fun net => netContains net ip) then name :: hits else hits)

theorem directParseHits_ok (feeds : List (String × FileRead)) (ip : IPAddr)
    (h : ∀ p ∈ feeds, p.2 ≠ FileRead.ioError) :
    ∃ hits, directParseHits feeds ip = .ok hits := by
  induction feeds with
  | nil => exact ⟨[], rfl⟩
  | cons p rest ih =>
    obtain ⟨name, fr⟩ := p
    obtain ⟨nets, hnets⟩ := load_networks_ok fr (h (name, fr) (List.mem_cons_self _ _))
    obtain ⟨hits, hhits⟩ := ih fun q hq => h q (List.mem_cons_of_mem _ hq)
    refine ⟨if nets.any (fun net => netContains net ip) then name :: hits else hits, ?_⟩
    unfold directParseHits
    rw [hnets, hhits]

/-- A feed is reported by the direct-parse path exactly when some network of
its file contains the query address. -/
theorem mem_directParseHits (feeds : List (String × FileRead)) (ip : IPAddr)
    (hits : List String) (h : directParseHits feeds ip = .ok hits) (F : String) :
    F ∈ hits ↔ ∃ fr nets net, (F, fr) ∈ feeds ∧
      load_networks_from_file fr = .ok nets ∧ net ∈ nets ∧
      netContains net ip = true := by
  induction feeds generalizing hits with
  | nil =>
    unfold directParseHits at h
    rw [Except.ok.injEq] at h
    subst h
    simp
  | cons p rest ih =>
    obtain ⟨name, fr⟩ := p
    unfold directParseHits at h
    split at h
    · simp at h
    · rename_i nets hnets
      split at h
      · simp at h
      · rename_i tailHits htail
        rw [Except.ok.injEq] at h
        subst h
        have hrest := ih tailHits htail
        constructor
        · intro hF
          split at hF
          · rename_i hany
            rcases List.mem_cons.mp hF with heq | hF'
            · subst heq
              rw [List.any_eq_true] at hany
              obtain ⟨net, hnet, hcon⟩ := hany
              exact ⟨fr, nets, net, List.mem_cons_self _ _, hnets, hnet, hcon⟩
            · obtain ⟨fr', nets', net, hmem, hload, hnet, hcon⟩ := hrest.mp hF'
              exact ⟨fr', nets', net, List.mem_cons_of_mem _ hmem, hload, hnet, hcon⟩
          · obtain ⟨fr', nets', net, hmem, hload, hnet, hcon⟩ := hrest.mp hF
            exact ⟨fr', nets', net, List.mem_cons_of_mem _ hmem, hload, hnet, hcon⟩
        · rintro ⟨fr', nets', net, hmem, hload, hnet, hcon⟩
          rcases List.mem_cons.mp hmem with heq | hmem'
          · rw [Prod.mk.injEq] at heq
            obtain ⟨h1, h2⟩ := heq
            subst h1
            subst h2
            rw [hnets, Except.ok.injEq] at hload
            subst hload
            have hany : nets.any (fun net => netContains net ip) = true :=
              List.any_eq_true.mpr ⟨net, hnet, hcon⟩
            rw [if_pos hany]
            exact List.mem_cons_self _ _
          · have hmem2 := hrest.mpr ⟨fr', nets', net, hmem', hload, hnet, hcon⟩
            split
            · exact List.mem_cons_of_mem _ hmem2
            · exact hmem2

/-! ### The two query paths of `ip_in_any_blacklist` -/

/-- The cache-enabled path of `ip_in_any_blacklist` (`blacklists.py:385-455`,
`_USE_CACHE = True`) in the run where the staleness check requests a rebuild,
the rebuild completes and the SQLite query succeeds: parse the query string
(an unparseable address yields the empty hit list, lines 391-394), rebuild the
store from the configured feed files and query it. -/
def ip_in_any_blacklist_cached (feeds : List (String × FileRead)) (now : Nat)
    (ipstr : String) : Except Unit (List String) :=
  match ip_address ipstr with
  | none => .ok []
  | some ip =>
    match rebuildCacheRows now feeds with
    | .error e => .error e
    | .ok rows => .ok (queryRows rows ip)

/-- The cache-disabled path of `ip_in_any_blacklist`
(`set_use_cache(False)`, `blacklists.py:41-44`, skipping lines 411-458):
parse the query string and scan the feed files directly. -/
def ip_in_any_blacklist_nocache (feeds : List (String × FileRead))
    (ipstr : String) : Except Unit (List String) :=
  match ip_address ipstr with
  | none => .ok []
  | some ip => directParseHits feeds ip

/-- How the rebuild attempted inside `ip_in_any_blacklist` (line 437) ended.
The rebuild deletes the store file (143-147), commits the table creation
(`_init_db`, line 76) and commits the inserted rows only at the end (165), so
a failing attempt leaves either no `networks` table (failure before or inside
`_db_connect`/`_init_db`) or an initialized table holding no rows (failure
after the `_init_db` commit: the uncommitted inserts roll back). -/
inductive RebuildAttempt where
  | completed
  | failedNoTable
  | failedEmptyTable
deriving DecidableEq

/-- Lines 435-468 of `blacklists.py` given that a rebuild was needed: the
attempt's exception is swallowed (438-440), then the SQLite query (443-455)
runs against whatever committed store the attempt left. With no `networks`
table the query raises, is caught (456-458) and the direct-parse loop
(461-466) answers instead; with an initialized table — even an empty one —
the query succeeds and its rows are returned directly. -/
def lookup_after_rebuild_attempt (a : RebuildAttempt)
    (feeds : List (String × FileRead)) (now : Nat) (ip : IPAddr) :
    Except Unit (List String) :=
  match a with
  | .completed =>
    match rebuildCacheRows now feeds with
    | .error e => .error e
    | .ok rows => .ok (queryRows rows ip)
  | .failedEmptyTable => .ok (queryRows [] ip)
  | .failedNoTable => directParseHits feeds ip

/-! ### Commit-level trace of `_rebuild_cache` -/

/-- The durable store: either the DB file is absent or it holds a committed
row set. -/
inductive StoreState where
  | absent
  | present (rows : List NetworkRow)
deriving DecidableEq

/-- The durable effects of `_rebuild_cache` in order: the attempted
`os.remove` of the store file — whose failure (a concurrently held file handle,
an undeletable directory entry) is swallowed by the bare
`try/except Exception: pass` at `blacklists.py:143-147`, leaving the old store
in place — a transaction commit (`_init_db` at line 76 commits the table
creation, a no-op `CREATE TABLE IF NOT EXISTS` when the old store survived;
line 165 commits the inserts), and the individual not-yet-committed `INSERT`
statements (159). `_rebuild_cache` issues no `DELETE`, so a surviving old
store keeps its rows and the rebuild appends to them. -/
inductive RebuildStep where
  | removeDb (ok : Bool)
  | commit
  | insertRow (r : NetworkRow)
deriving DecidableEq

/-- A store mid-transaction: the committed state plus pending uncommitted
inserts. -/
structure TxState where
  committed : StoreState
  pending : List NetworkRow

def applyStep (s : TxState) : RebuildStep → TxState
  | .removeDb true => ⟨.absent, []⟩
  | .removeDb false => s
  | .commit =>
    match s.committed with
    | .absent => ⟨.present s.pending, []⟩
    | .present rs => ⟨.present (rs ++ s.pending), []⟩
  | .insertRow r => ⟨s.committed, s.pending ++ [r]⟩

/-- The committed store visible after each successive step. -/
def statesFrom (s : TxState) : List RebuildStep → List StoreState
  | [] => []
  | op :: ops =>
    let s' := applyStep s op
    s'.committed :: statesFrom s' ops

/-- The step sequence of `_rebuild_cache` (`blacklists.py:141-166`): try to
remove the store file (`removeOk` records whether the swallowed `os.remove`
succeeded), commit the table creation, insert every row, commit. -/
def rebuildSteps (removeOk : Bool) (rows : List NetworkRow) : List RebuildStep :=
  RebuildStep.removeDb removeOk :: RebuildStep.commit ::
    (rows.map RebuildStep.insertRow ++ [RebuildStep.commit])

/-- The sequence of committed stores visible at the possible failure points of
`_rebuild_cache`, starting from the prior committed store. -/
def visibleDuringRebuild (removeOk : Bool) (prior : StoreState)
    (rows : List NetworkRow) : List StoreState :=
  statesFrom ⟨prior, []⟩ (rebuildSteps removeOk rows)

/-- The old rows still in the store when the insert phase starts: none when
the `os.remove` succeeded (or there was nothing to remove), the prior
committed rows when it failed silently. -/
def survivingRows (removeOk : Bool) (prior : StoreState) : List NetworkRow :=
  if removeOk then []
  else
    match prior with
    | .absent => []
    | .present rs => rs

theorem statesFrom_inserts (rs : List NetworkRow) (committedRows pending : List NetworkRow) :
    statesFrom ⟨.present committedRows, pending⟩
        (rs.map RebuildStep.insertRow ++ [RebuildStep.commit]) =
      List.replicate rs.length (.present committedRows) ++
        [.present (committedRows ++ (pending ++ rs))] := by
  induction rs generalizing pending with
  | nil => simp [statesFrom, applyStep]
  | cons r rest ih =>
    simp only [List.map_cons, List.cons_append, statesFrom, applyStep,
      List.length_cons, List.replicate_succ]
    rw [List.append_eq, ih (pending ++ [r])]
    simp

theorem visibleDuringRebuild_eq (removeOk : Bool) (prior : StoreState)
    (rows : List NetworkRow) :
    visibleDuringRebuild removeOk prior rows =
      (if removeOk then StoreState.absent else prior) ::
        StoreState.present (survivingRows removeOk prior) ::
        (List.replicate rows.length (StoreState.present (survivingRows removeOk prior)) ++
          [StoreState.present (survivingRows removeOk prior ++ rows)]) := by
  cases removeOk with
  | true =>
    unfold visibleDuringRebuild rebuildSteps survivingRows
    simp only [statesFrom, applyStep]
    rw [statesFrom_inserts rows [] []]
    simp
  | false =>
    cases prior with
    | absent =>
      unfold visibleDuringRebuild rebuildSteps survivingRows
      simp only [statesFrom, applyStep]
      rw [statesFrom_inserts rows [] []]
      simp
    | present rs =>
      unfold visibleDuringRebuild rebuildSteps survivingRows
      simp only [statesFrom, applyStep]
      rw [statesFrom_inserts rows (rs ++ []) []]
      simp

/-! ### `update_feed` -/

/-- The outcome of the fetch-and-save phase of `update_feed`
(`blacklists.py:232-280`): downloading or locally reading the feed source,
writing the local cache file, and recording the fetch timestamp in the
metadata; `failed` covers any exception in that phase, caught at 294-296. -/
inductive FetchResult where
  | fetched (lines : List String)
  | failed
deriving DecidableEq

/-- Whether the incremental DB update attempted by `update_feed` raised. -/
inductive DbUpdateAttempt where
  | applied
  | raised
deriving DecidableEq

/-- `update_feed` (`blacklists.py:229-296`): on fetch success the function
returns `True` no matter how the guarded `_update_db_for_feed` call ends —
its exception is swallowed at 290-292, and because `_update_db_for_feed`
commits only at its end (327), a raising attempt leaves the committed row set
unchanged. Result: the returned boolean and the committed row set. -/
def update_feed (useCache : Bool) (fetch : FetchResult) (attempt : DbUpdateAttempt)
    (db : List NetworkRow) (feed : String) (now : Nat) : Bool × List NetworkRow :=
  match fetch with
  | .failed => (false, db)
  | .fetched lines =>
    if useCache then
      match attempt with
      | .applied =>
        match update_db_for_feed db feed now (.content lines) with
        | .ok db' => (true, db')
        | .error _ => (true, db)
      | .raised => (true, db)
    else (true, db)

/-! ### The stored-row invariant -/

/-- The invariant of claim C9 on a stored row: the start key is
byte-lexicographically at most the end key, and both keys have the fixed byte
width of the row's family. -/
def RowInv (r : NetworkRow) : Prop :=
  lexLe r.start r.endb = true ∧ r.start.length = addrBytes r.version ∧
    r.endb.length = addrBytes r.version

instance (r : NetworkRow) : Decidable (RowInv r) := by
  unfold RowInv; infer_instance

/-- Every row inserted for a valid network satisfies the invariant. -/
theorem rowOfNet_inv (now : Nat) (feed : String) (net : IPNetwork)
    (hv : net.Valid) : RowInv (rowOfNet now feed net) := by
  obtain ⟨hver, hp, hlt, hmask⟩ := hv
  have hpow : 2 ^ addrBits net.version = 256 ^ addrBytes net.version := by
    rw [addrBits_eq_mul, pow_mul]
    norm_num
  have hlt' : net.netaddr < 256 ^ addrBytes net.version := by
    rw [← hpow]; exact hlt
  have hbc' : net.broadcast < 256 ^ addrBytes net.version := by
    rw [← hpow]
    exact broadcast_lt net ⟨hver, hp, hlt, hmask⟩
  have hbytes : (if net.version = 6 then 6 else 4 : Nat) = net.version := by
    rcases hver with h | h <;> simp [h]
  refine ⟨?_, ?_, ?_⟩
  · show lexLe (toBytesBE (addrBytes net.version) net.netaddr)
      (toBytesBE (addrBytes net.version) net.broadcast) = true
    rw [lexLe_toBytesBE _ _ _ hlt' hbc']
    unfold IPNetwork.broadcast
    omega
  · show (toBytesBE (addrBytes net.version) net.netaddr).length
      = addrBytes (if net.version = 6 then 6 else 4)
    rw [toBytesBE_length, hbytes]
  · show (toBytesBE (addrBytes net.version) net.broadcast).length
      = addrBytes (if net.version = 6 then 6 else 4)
    rw [toBytesBE_length, hbytes]

/-! ### Query characterization -/

/-- Membership in the query result over a freshly rebuilt store, phrased with
the raw row predicate. -/
theorem mem_queryRows_rebuild_raw (now : Nat) (feeds : List (String × FileRead))
    (rows : List NetworkRow) (ip : IPAddr) (F : String)
    (hdb : rebuildCacheRows now feeds = .ok rows) :
    F ∈ queryRows rows ip ↔ ∃ fr nets net, (F, fr) ∈ feeds ∧
      load_networks_from_file fr = .ok nets ∧ net ∈ nets ∧
      matchRow ip (rowOfNet now F net) = true := by
  rw [mem_queryRows]
  constructor
  · rintro ⟨r, hr, hmatch, hfeed⟩
    obtain ⟨name, fr, nets, net, hmem, hload, hnet, hreq⟩ :=
      (mem_rebuildCacheRows now feeds rows hdb r).mp hr
    have hname : name = F := by
      rw [hreq] at hfeed
      exact hfeed
    subst hname
    subst hreq
    exact ⟨fr, nets, net, hmem, hload, hnet, hmatch⟩
  · rintro ⟨fr, nets, net, hmem, hload, hnet, hmatch⟩
    exact ⟨rowOfNet now F net,
      (mem_rebuildCacheRows now feeds rows hdb _).mpr
        ⟨F, fr, nets, net, hmem, hload, hnet, rfl⟩, hmatch, rfl⟩

/-- Membership in the query result over a freshly rebuilt store coincides with
CIDR membership in some network of the feed's file. -/
theorem mem_queryRows_rebuild (now : Nat) (feeds : List (String × FileRead))
    (rows : List NetworkRow) (ip : IPAddr) (F : String)
    (hdb : rebuildCacheRows now feeds = .ok rows) (hip : ip.Valid) :
    F ∈ queryRows rows ip ↔ ∃ fr nets net, (F, fr) ∈ feeds ∧
      load_networks_from_file fr = .ok nets ∧ net ∈ nets ∧
      netContains net ip = true := by
  rw [mem_queryRows_rebuild_raw now feeds rows ip F hdb]
  constructor
  · rintro ⟨fr, nets, net, hmem, hload, hnet, hmatch⟩
    refine ⟨fr, nets, net, hmem, hload, hnet, ?_⟩
    rw [← matchRow_rowOfNet now F net ip (load_networks_valid fr nets hload net hnet) hip]
    exact hmatch
  · rintro ⟨fr, nets, net, hmem, hload, hnet, hcon⟩
    refine ⟨fr, nets, net, hmem, hload, hnet, ?_⟩
    rw [matchRow_rowOfNet now F net ip (load_networks_valid fr nets hload net hnet) hip]
    exact hcon

/-! ### Concrete data used by witnesses and counterexamples -/

/-- One configured feed whose file holds the single CIDR `203.0.113.0/24`. -/
def demoFeeds : List (String × FileRead) := [("feedA", .content ["203.0.113.0/24"])]

/-- The address `203.0.113.5`, inside `203.0.113.0/24`. -/
def demoIp : IPAddr := ⟨4, 3405803781⟩

/-- The parsed network `203.0.113.0/24`. -/
def demoNet : IPNetwork := ⟨4, 3405803776, 24⟩

/-- The parsed network `198.51.100.0/24`. -/
def demoNetG : IPNetwork := ⟨4, 3325256704, 24⟩

/-- The address `198.51.100.7`, inside `198.51.100.0/24` only. -/
def demoIpG : IPAddr := ⟨4, 3325256711⟩

/-- A committed row of feed `feedG` for `198.51.100.0/24`. -/
def demoRowG : NetworkRow := rowOfNet 0 "feedG" demoNetG

/-! ### The claims -/

/-- C1: after a full cache rebuild, `ip_in_any_blacklist` on the textual form
of an address reports exactly the feeds one of whose parsed networks contains
the address: the stored byte-lexicographic bound comparison
`start <= key <= end` agrees with CIDR membership row by row, a feed with a
containing network is always included, and an address outside every
configured network yields the empty result. -/
theorem C1_full_rebuild_lookup (feeds : List (String × FileRead)) (now : Nat)
    (rows : List NetworkRow) (s : String) (ip : IPAddr)
    (hdb : rebuildCacheRows now feeds = .ok rows)
    (hip : ip_address s = some ip) :
    ip_in_any_blacklist_cached feeds now s = .ok (queryRows rows ip) ∧
    (∀ F, F ∈ queryRows rows ip ↔ ∃ fr nets net, (F, fr) ∈ feeds ∧
        load_networks_from_file fr = .ok nets ∧ net ∈ nets ∧
        netContains net ip = true) ∧
    (∀ feed net, net.Valid →
        matchRow ip (rowOfNet now feed net) = netContains net ip) ∧
    ((∀ F fr nets net, (F, fr) ∈ feeds → load_networks_from_file fr = .ok nets →
        net ∈ nets → netContains net ip = false) → queryRows rows ip = []) := by
  have hipv := ip_address_valid s ip hip
  refine ⟨?_, ?_, ?_, ?_⟩
  · unfold ip_in_any_blacklist_cached
    rw [hip, hdb]
  · intro F
    exact mem_queryRows_rebuild now feeds rows ip F hdb hipv
  · intro feed net hv
    exact matchRow_rowOfNet now feed net ip hv hipv
  · intro hout
    rw [List.eq_nil_iff_forall_not_mem]
    intro F hF
    obtain ⟨fr, nets, net, hmem, hload, hnet, hcon⟩ :=
      (mem_queryRows_rebuild now feeds rows ip F hdb hipv).mp hF
    rw [hout F fr nets net hmem hload hnet] at hcon
    exact Bool.false_ne_true hcon

/-- C2 counterexample: the claim "a failed rebuild inside `ip_in_any_blacklist`
falls back to direct parsing and never silently yields an empty result when the
feed files contain the address" is false on the code: a rebuild failure that
leaves an initialized empty `networks` table (the state `_rebuild_cache`
commits at `_init_db` before inserting) makes the query succeed with zero rows,
so the call returns the empty hit list without any fallback or warning, while
direct parsing of the same feed files reports `feedA` for `203.0.113.5`. -/
theorem C2_counterexample :
    lookup_after_rebuild_attempt RebuildAttempt.failedEmptyTable demoFeeds 0 demoIp
        = .ok [] ∧
    directParseHits demoFeeds demoIp = .ok ["feedA"] := by
  constructor
  · rfl
  · decide

/-- C2 amended: when the failed rebuild leaves no queryable `networks` table,
the call indeed does not raise and answers from direct parsing of the feed
files (all readable or missing); but no warning is reported anywhere, and when
the failed rebuild has already committed an initialized table the call returns
that table's match set — empty even if the feed files contain the address. -/
theorem C2_amended_fallback (feeds : List (String × FileRead)) (now : Nat)
    (ip : IPAddr) (hreadable : ∀ p ∈ feeds, p.2 ≠ FileRead.ioError) :
    (∃ hits, lookup_after_rebuild_attempt RebuildAttempt.failedNoTable feeds now ip
        = .ok hits ∧
      ∀ F, F ∈ hits ↔ ∃ fr nets net, (F, fr) ∈ feeds ∧
        load_networks_from_file fr = .ok nets ∧ net ∈ nets ∧
        netContains net ip = true) ∧
    lookup_after_rebuild_attempt RebuildAttempt.failedEmptyTable feeds now ip
        = .ok [] := by
  constructor
  · obtain ⟨hits, hhits⟩ := directParseHits_ok feeds ip hreadable
    exact ⟨hits, hhits, fun F => mem_directParseHits feeds ip hits hhits F⟩
  · rfl

/-- C3 counterexample: the claim "`_rebuild_cache` either commits the new
store or leaves the previously committed store intact, with no
partially-populated store visible" is false on the code in both branches of
the guarded `os.remove` (lines 143-147). When the removal succeeds, the absent
store is visible mid-rebuild with a prior committed row of `feedG` lost —
neither the prior nor the new store. When the removal fails silently, the old
rows survive (no `DELETE` is issued) and the completed rebuild commits the old
row followed by the new one — again neither the prior nor the new store. -/
theorem C3_counterexample :
    (¬ ∀ s ∈ visibleDuringRebuild true (StoreState.present [demoRowG])
        [rowOfNet 1 "feedA" demoNet],
      s = StoreState.present [demoRowG] ∨
        s = StoreState.present [rowOfNet 1 "feedA" demoNet]) ∧
    (¬ ∀ s ∈ visibleDuringRebuild false (StoreState.present [demoRowG])
        [rowOfNet 1 "feedA" demoNet],
      s = StoreState.present [demoRowG] ∨
        s = StoreState.present [rowOfNet 1 "feedA" demoNet]) := by
  constructor
  · decide
  · decide

/-- C3 amended: `_rebuild_cache` first tries to delete the prior store,
swallowing a deletion failure. When the deletion succeeds, a failing rebuild
can lose the prior committed data and expose an absent or
empty-but-initialized store; when it fails silently, the prior rows survive
and a completed rebuild appends the new rows after them instead of replacing
them. What does hold in every branch is that the rebuild transaction's inserts
are never partially visible: every committed state visible during the rebuild
is the absent store, the prior store, the store of surviving old rows, or the
surviving old rows followed by all the new rows. -/
theorem C3_amended_visible_states (removeOk : Bool) (prior : StoreState)
    (rows : List NetworkRow) :
    ∀ s ∈ visibleDuringRebuild removeOk prior rows,
      s = StoreState.absent ∨ s = prior ∨
        s = StoreState.present (survivingRows removeOk prior) ∨
        s = StoreState.present (survivingRows removeOk prior ++ rows) := by
  intro s hs
  rw [visibleDuringRebuild_eq] at hs
  rcases List.mem_cons.mp hs with h | hs'
  · cases removeOk with
    | true =>
      rw [if_pos rfl] at h
      exact Or.inl h
    | false =>
      rw [if_neg (by simp)] at h
      exact Or.inr (Or.inl h)
  rcases List.mem_cons.mp hs' with h | hs''
  · exact Or.inr (Or.inr (Or.inl h))
  rcases List.mem_append.mp hs'' with h | h
  · exact Or.inr (Or.inr (Or.inl (List.eq_of_mem_replicate h)))
  · exact Or.inr (Or.inr (Or.inr (List.mem_singleton.mp h)))

/-- C4: for any fixed set of feed files (each readable or missing) and any
query string, the cache-enabled path (rebuild plus SQLite byte-range query)
and the cache-disabled path (direct per-file parsing with linear containment
tests) return the same set of feed names. -/
theorem C4_cache_matches_direct (feeds : List (String × FileRead)) (now : Nat)
    (s : String) (hreadable : ∀ p ∈ feeds, p.2 ≠ FileRead.ioError) :
    ∃ cachedHits directHits,
      ip_in_any_blacklist_cached feeds now s = .ok cachedHits ∧
      ip_in_any_blacklist_nocache feeds s = .ok directHits ∧
      ∀ F, F ∈ cachedHits ↔ F ∈ directHits := by
  unfold ip_in_any_blacklist_cached ip_in_any_blacklist_nocache
  cases hip : ip_address s with
  | none => exact ⟨[], [], rfl, rfl, fun F => Iff.rfl⟩
  | some ip =>
    obtain ⟨rows, hrows⟩ := rebuildCacheRows_ok now feeds hreadable
    obtain ⟨hits, hhits⟩ := directParseHits_ok feeds ip hreadable
    refine ⟨queryRows rows ip, hits, ?_, ?_, ?_⟩
    · rw [hrows]
    · exact hhits
    · intro F
      rw [mem_queryRows_rebuild now feeds rows ip F hrows (ip_address_valid s ip hip),
        mem_directParseHits feeds ip hits hhits F]

/-- C5: the incremental per-feed update for feed `F` deletes and reinserts
only `F`'s rows: every stored row of a distinct feed `G` survives unchanged,
and for an address contained neither in `F`'s old rows nor in `F`'s new
networks the lookup result is unchanged. -/
theorem C5_update_feed_frame (db : List NetworkRow) (F G : String) (now : Nat)
    (fr : FileRead) (nets : List IPNetwork) (db' : List NetworkRow) (ip : IPAddr)
    (hG : G ≠ F)
    (hload : load_networks_from_file fr = .ok nets)
    (hupd : update_db_for_feed db F now fr = .ok db')
    (hip : ip.Valid)
    (hOldF : ∀ r ∈ db, r.feed = F → matchRow ip r = false)
    (hNewF : ∀ net ∈ nets, netContains net ip = false) :
    db'.filter (fun r => r.feed == G) = db.filter (fun r => r.feed == G) ∧
    (∀ H, H ∈ queryRows db' ip ↔ H ∈ queryRows db ip) := by
  unfold update_db_for_feed at hupd
  rw [hload, Except.ok.injEq] at hupd
  subst hupd
  constructor
  · rw [List.filter_append]
    have h2 : (nets.map (rowOfNet now F)).filter (fun r => r.feed == G) = [] := by
      rw [List.filter_eq_nil_iff]
      intro r hr
      rw [List.mem_map] at hr
      obtain ⟨net, _, hreq⟩ := hr
      rw [← hreq]
      show ¬ ((rowOfNet now F net).feed == G) = true
      rw [beq_iff_eq]
      exact fun h => hG h.symm
    rw [h2, List.append_nil]
    have h1 : ∀ l : List NetworkRow,
        (l.filter (fun r => r.feed != F)).filter (fun r => r.feed == G)
          = l.filter (fun r => r.feed == G) := by
      intro l
      induction l with
      | nil => rfl
      | cons r t ih =>
        by_cases hfg : r.feed = G
        · have hb1 : (r.feed == G) = true := beq_iff_eq.mpr hfg
          have hb2 : (r.feed != F) = true := by
            rw [bne_iff_ne, hfg]
            exact hG
          simp [List.filter_cons, hb1, hb2, ih]
        · have hb1 : (r.feed == G) = false := beq_eq_false_iff_ne.mpr hfg
          by_cases hff : (r.feed != F) = true
          · simp [List.filter_cons, hb1, hff, ih]
          · rw [Bool.not_eq_true] at hff
            simp [List.filter_cons, hb1, hff, ih]
    exact h1 db
  · intro H
    rw [mem_queryRows, mem_queryRows]
    constructor
    · rintro ⟨r, hr, hmatch, hfeed⟩
      rcases List.mem_append.mp hr with hr | hr
      · rw [List.mem_filter] at hr
        exact ⟨r, hr.1, hmatch, hfeed⟩
      · exfalso
        rw [List.mem_map] at hr
        obtain ⟨net, hnet, hreq⟩ := hr
        have hfalse : matchRow ip r = false := by
          rw [← hreq,
            matchRow_rowOfNet now F net ip (load_networks_valid fr nets hload net hnet) hip]
          exact hNewF net hnet
        rw [hfalse] at hmatch
        exact Bool.false_ne_true hmatch
    · rintro ⟨r, hr, hmatch, hfeed⟩
      by_cases hrf : r.feed = F
      · rw [hOldF r hr hrf] at hmatch
        exact absurd hmatch Bool.false_ne_true
      · refine ⟨r, List.mem_append.mpr (Or.inl ?_), hmatch, hfeed⟩
        rw [List.mem_filter]
        exact ⟨hr, bne_iff_ne.mpr hrf⟩

/-- C6: queries never cross address families: every feed reported for a query
address owes the report to a stored network of the query's own family — an
IPv6 query is never matched by a row inserted from an IPv4 network and an IPv4
query never by an IPv6-only one, the family tag stored at insert time being
checked by the `version=?` conjunct of the query. -/
theorem C6_no_cross_family_match (feeds : List (String × FileRead)) (now : Nat)
    (rows : List NetworkRow) (ip : IPAddr) (F : String)
    (hdb : rebuildCacheRows now feeds = .ok rows) (hip : ip.Valid)
    (hF : F ∈ queryRows rows ip) :
    ∃ fr nets net, (F, fr) ∈ feeds ∧ load_networks_from_file fr = .ok nets ∧
      net ∈ nets ∧ net.version = ip.version ∧ netContains net ip = true := by
  obtain ⟨fr, nets, net, hmem, hload, hnet, hcon⟩ :=
    (mem_queryRows_rebuild now feeds rows ip F hdb hip).mp hF
  refine ⟨fr, nets, net, hmem, hload, hnet, ?_, hcon⟩
  unfold netContains at hcon
  rw [Bool.and_eq_true] at hcon
  exact beq_iff_eq.mp hcon.1

/-- C7 counterexample: the claim "`_load_networks_from_file` never raises for
any file path and content" is false on the code: only `FileNotFoundError` is
caught, so a read that fails any other way (permission error, undecodable
bytes) propagates the exception instead of contributing zero networks. -/
theorem C7_counterexample :
    load_networks_from_file FileRead.ioError = .error () := rfl

/-- C7 amended: a missing feed file contributes zero networks without raising;
parsing decodable content never raises, each malformed line (`"not-an-ip"`,
`"999.999.999.999"`, empty or comment-only lines) contributes zero networks,
and a valid line is parsed no matter what malformed lines surround it; but a
read failure other than file-not-found propagates an exception. -/
theorem C7_amended_loader (pre post : List String) (line : String)
    (net : IPNetwork) (hline : parseFeedLine line = some net) :
    load_networks_from_file FileRead.missing = .ok [] ∧
    (∀ lines : List String,
      ∃ nets, load_networks_from_file (FileRead.content lines) = .ok nets) ∧
    parseFeedLine "not-an-ip" = none ∧
    parseFeedLine "999.999.999.999" = none ∧
    parseFeedLine "" = none ∧
    parseFeedLine "# comment only" = none ∧
    load_networks_from_file (FileRead.content (pre ++ line :: post)) =
      .ok (pre.filterMap parseFeedLine ++ net :: post.filterMap parseFeedLine) := by
  refine ⟨rfl, fun lines => ⟨lines.filterMap parseFeedLine, rfl⟩,
    by decide, by decide, rfl, by decide, ?_⟩
  show Except.ok ((pre ++ line :: post).filterMap parseFeedLine) = _
  rw [List.filterMap_append, List.filterMap_cons, hline]

/-- C8: two full rebuilds from identical feed files — their rows differing
only in the insertion timestamp, which the query never reads — produce stores
with identical match sets for every query address. -/
theorem C8_rebuild_idempotent (feeds : List (String × FileRead)) (t1 t2 : Nat)
    (rows1 rows2 : List NetworkRow) (ip : IPAddr) (F : String)
    (h1 : rebuildCacheRows t1 feeds = .ok rows1)
    (h2 : rebuildCacheRows t2 feeds = .ok rows2) :
    F ∈ queryRows rows1 ip ↔ F ∈ queryRows rows2 ip := by
  rw [mem_queryRows_rebuild_raw t1 feeds rows1 ip F h1,
    mem_queryRows_rebuild_raw t2 feeds rows2 ip F h2]
  constructor
  · rintro ⟨fr, nets, net, hmem, hload, hnet, hmatch⟩
    exact ⟨fr, nets, net, hmem, hload, hnet, hmatch⟩
  · rintro ⟨fr, nets, net, hmem, hload, hnet, hmatch⟩
    exact ⟨fr, nets, net, hmem, hload, hnet, hmatch⟩

/-- C9: every row inserted into the networks store — by the full rebuild or by
the per-feed incremental update — has start and end keys of its family's fixed
byte width with `start <= end` byte-lexicographically, and both store-mutating
operations preserve the invariant over the whole store. -/
theorem C9_store_invariant (now : Nat) :
    (∀ feeds rows, rebuildCacheRows now feeds = .ok rows → ∀ r ∈ rows, RowInv r) ∧
    (∀ db feed fr db', (∀ r ∈ db, RowInv r) →
      update_db_for_feed db feed now fr = .ok db' → ∀ r ∈ db', RowInv r) := by
  constructor
  · intro feeds rows hdb r hr
    obtain ⟨name, fr, nets, net, _, hload, hnet, hreq⟩ :=
      (mem_rebuildCacheRows now feeds rows hdb r).mp hr
    rw [hreq]
    exact rowOfNet_inv now name net (load_networks_valid fr nets hload net hnet)
  · intro db feed fr db' hdb hupd r hr
    unfold update_db_for_feed at hupd
    split at hupd
    · simp at hupd
    · rename_i nets hload
      rw [Except.ok.injEq] at hupd
      subst hupd
      rcases List.mem_append.mp hr with hr | hr
      · exact hdb r (List.mem_filter.mp hr).1
      · rw [List.mem_map] at hr
        obtain ⟨net, hnet, hreq⟩ := hr
        rw [← hreq]
        exact rowOfNet_inv now feed net (load_networks_valid fr nets hload net hnet)

/-- C10: `update_feed` returns `True` whenever the fetch-and-save phase
succeeds, no matter how the guarded incremental DB update ends — its exception
is swallowed — and when that update raises, the committed store is left
unchanged, so a `True` return does not guarantee the store reflects the newly
fetched feed content. -/
theorem C10_update_feed_swallows_db_failure (useCache : Bool)
    (attempt : DbUpdateAttempt) (db : List NetworkRow) (feed : String)
    (now : Nat) (lines : List String) :
    (update_feed useCache (.fetched lines) attempt db feed now).1 = true ∧
    (attempt = DbUpdateAttempt.raised →
      (update_feed useCache (.fetched lines) attempt db feed now).2 = db) := by
  constructor
  · unfold update_feed
    cases useCache with
    | false => rfl
    | true =>
      cases attempt with
      | raised => rfl
      | applied =>
        simp only
        split <;> rfl
  · intro ha
    subst ha
    unfold update_feed
    cases useCache <;> rfl

/-! ### Witnesses -/

/-- Witness for C1: with `feedA` configured as `203.0.113.0/24`, after a full
rebuild the query for `203.0.113.5` includes `feedA`. -/
theorem C1_full_rebuild_lookup_witness :
    "feedA" ∈ queryRows [rowOfNet 0 "feedA" demoNet] demoIp :=
  ((C1_full_rebuild_lookup demoFeeds 0 [rowOfNet 0 "feedA" demoNet]
      "203.0.113.5" demoIp (by decide) (by decide)).2.1 "feedA").mpr
    ⟨FileRead.content ["203.0.113.0/24"], [demoNet], demoNet,
      by decide, by decide, by decide, by decide⟩

/-- Witness for the amended C2 at the concrete feed set and address. -/
theorem C2_amended_fallback_witness :
    (∃ hits, lookup_after_rebuild_attempt RebuildAttempt.failedNoTable demoFeeds 0 demoIp
        = .ok hits ∧
      ∀ F, F ∈ hits ↔ ∃ fr nets net, (F, fr) ∈ demoFeeds ∧
        load_networks_from_file fr = .ok nets ∧ net ∈ nets ∧
        netContains net demoIp = true) ∧
    lookup_after_rebuild_attempt RebuildAttempt.failedEmptyTable demoFeeds 0 demoIp
        = .ok [] :=
  C2_amended_fallback demoFeeds 0 demoIp (by decide)

/-- Witness for the amended C3: in the failed-removal branch, the
old-row-plus-new-row store committed at the end of the rebuild is one of the
four permitted states. -/
theorem C3_amended_visible_states_witness :
    StoreState.present [demoRowG, rowOfNet 1 "feedA" demoNet] = StoreState.absent ∨
      StoreState.present [demoRowG, rowOfNet 1 "feedA" demoNet]
        = StoreState.present [demoRowG] ∨
      StoreState.present [demoRowG, rowOfNet 1 "feedA" demoNet]
        = StoreState.present (survivingRows false (StoreState.present [demoRowG])) ∨
      StoreState.present [demoRowG, rowOfNet 1 "feedA" demoNet]
        = StoreState.present (survivingRows false (StoreState.present [demoRowG])
            ++ [rowOfNet 1 "feedA" demoNet]) :=
  C3_amended_visible_states false (StoreState.present [demoRowG])
    [rowOfNet 1 "feedA" demoNet]
    (StoreState.present [demoRowG, rowOfNet 1 "feedA" demoNet]) (by decide)

/-- Witness for C4 at the concrete feed set and query string. -/
theorem C4_cache_matches_direct_witness :
    ∃ cachedHits directHits,
      ip_in_any_blacklist_cached demoFeeds 0 "203.0.113.5" = .ok cachedHits ∧
      ip_in_any_blacklist_nocache demoFeeds "203.0.113.5" = .ok directHits ∧
      ∀ F, F ∈ cachedHits ↔ F ∈ directHits :=
  C4_cache_matches_direct demoFeeds 0 "203.0.113.5" (by decide)

/-- Witness for C5: updating `feedA` leaves `feedG`'s row and the lookup for
`198.51.100.7` (inside `feedG`'s range only) unchanged. -/
theorem C5_update_feed_frame_witness :
    ([demoRowG, rowOfNet 1 "feedA" demoNet].filter (fun r => r.feed == "feedG")
        = [demoRowG].filter (fun r => r.feed == "feedG")) ∧
    (∀ H, H ∈ queryRows [demoRowG, rowOfNet 1 "feedA" demoNet] demoIpG ↔
        H ∈ queryRows [demoRowG] demoIpG) :=
  C5_update_feed_frame [demoRowG] "feedA" "feedG" 1
    (FileRead.content ["203.0.113.0/24"]) [demoNet]
    [demoRowG, rowOfNet 1 "feedA" demoNet] demoIpG
    (by decide) (by decide) (by decide) (by decide) (by decide) (by decide)

/-- Witness for C6: the reported match of `feedA` for `203.0.113.5` comes from
a network of the query's family. -/
theorem C6_no_cross_family_match_witness :
    ∃ fr nets net, ("feedA", fr) ∈ demoFeeds ∧
      load_networks_from_file fr = .ok nets ∧ net ∈ nets ∧
      net.version = demoIp.version ∧ netContains net demoIp = true :=
  C6_no_cross_family_match demoFeeds 0 [rowOfNet 0 "feedA" demoNet] demoIp "feedA"
    (by decide) (by decide) (by decide)

/-- Witness for the amended C7: a valid line surrounded by two malformed ones
is still parsed, the malformed ones contributing nothing. -/
theorem C7_amended_loader_witness :
    load_networks_from_file FileRead.missing = .ok [] ∧
    (∀ lines : List String,
      ∃ nets, load_networks_from_file (FileRead.content lines) = .ok nets) ∧
    parseFeedLine "not-an-ip" = none ∧
    parseFeedLine "999.999.999.999" = none ∧
    parseFeedLine "" = none ∧
    parseFeedLine "# comment only" = none ∧
    load_networks_from_file
        (FileRead.content (["not-an-ip"] ++ "203.0.113.0/24" :: ["999.999.999.999"])) =
      .ok (["not-an-ip"].filterMap parseFeedLine ++
        demoNet :: ["999.999.999.999"].filterMap parseFeedLine) :=
  C7_amended_loader ["not-an-ip"] ["999.999.999.999"] "203.0.113.0/24" demoNet
    (by decide)

/-- Witness for C8: rebuilds at two different times answer the concrete query
identically. -/
theorem C8_rebuild_idempotent_witness :
    "feedA" ∈ queryRows [rowOfNet 0 "feedA" demoNet] demoIp ↔
      "feedA" ∈ queryRows [rowOfNet 1 "feedA" demoNet] demoIp :=
  C8_rebuild_idempotent demoFeeds 0 1 [rowOfNet 0 "feedA" demoNet]
    [rowOfNet 1 "feedA" demoNet] demoIp "feedA" (by decide) (by decide)

/-- Witness for C9: the row rebuilt for `203.0.113.0/24` satisfies the store
invariant. -/
theorem C9_store_invariant_witness : RowInv (rowOfNet 0 "feedA" demoNet) :=
  (C9_store_invariant 0).1 demoFeeds [rowOfNet 0 "feedA" demoNet] (by decide)
    (rowOfNet 0 "feedA" demoNet) (by decide)

/-- Witness for C10: a fetched feed with a raising DB update still reports
success and leaves the store empty. -/
theorem C10_update_feed_swallows_db_failure_witness :
    (update_feed true (.fetched ["203.0.113.0/24"]) DbUpdateAttempt.raised []
        "feedA" 0).1 = true ∧
    (DbUpdateAttempt.raised = DbUpdateAttempt.raised →
      (update_feed true (.fetched ["203.0.113.0/24"]) DbUpdateAttempt.raised []
          "feedA" 0).2 = []) :=
  C10_update_feed_swallows_db_failure true DbUpdateAttempt.raised [] "feedA" 0
    ["203.0.113.0/24"]

end Blacklists
